import Mathlib

/-!
Verification of the CUDA cross-correlation engine
(`cuda_cross_correlation.cuh`, concatenated source listing `part_000`).

Modelling conventions (shallow embedding):
* A device buffer is a total function `Nat → Nat` from flat addresses
  (pointer offsets) to element values.  The element type `T` is generic in
  the source (any summable, comparable numeric type); we instantiate it with
  `Nat`, which is faithful for any instantiation wide enough not to wrap.
* A CUDA kernel is embedded as the function one thread computes, taking the
  block dimensions, the block index and the thread index.  It returns
  `some (address, value)` for the single global-memory store the thread
  performs on the destination buffer, and `none` when the boundary guard
  makes the thread store nothing.
* A kernel launch is the list of all threads of the grid; the destination
  buffer after the launch is obtained by folding every thread's store (in a
  fixed canonical order) over the initially unwritten buffer `fun _ => none`.
* `std::size_t` arithmetic is modelled by `Nat`; truncating subtraction
  agrees with `size_t` wherever the functional claims apply (the
  preconditions `kernel_size` odd, `3 ≤ kernel_size ≤ min(rows, cols)` keep
  every subtraction that the code performs on the scan path non-negative).
* `ceil` of a float quotient of two integral values is modelled by exact
  natural ceiling division (`(a + b - 1) / b`), which is what the float
  computation produces for the magnitudes the program handles.
-/

/-- Models `ceil((float) a / b)` as exact natural ceiling division. -/
def ceilDivF (a b : Nat) : Nat := (a + b - 1) / b

/-- The offsets scanned by `for (i = shift; i < matrix_src_cols - shift; i++)`. -/
def offsetRange (cols shift : Nat) : List Nat := List.range' shift (cols - shift - shift)

/-- The windowed dot product `tmp` accumulated by the two inner loops of
`crossCorrelationKernel` for one candidate offset `i`:

    for (j = sRow - shift; j <= sRow + shift; j++)
      for (k = 0, l = sCol - shift; k < kernel_size, l <= sCol + shift; k++, l++)
        tmp += *(d_src1 + (j * cols) + k + (i - shift)) * *(d_src2 + (j * cols) + l);

Both loops run `2*(kernel_size/2) + 1` times: the `j` loop by its bounds, and
the inner loop because the comma operator discards `k < kernel_size`, so only
`l <= sCol + shift` is the effective condition.  We index the `j` loop by the
offset `jo = j - (sRow - shift)` and the inner loop by `m = k = l - (sCol - shift)`
(the kernel always has `sRow ≥ shift` and `sCol ≥ shift` by construction). -/
def score (d_src1 d_src2 : Nat → Nat) (cols kernel_size sRow sCol i : Nat) : Nat :=
  let shift := kernel_size / 2
  (List.range (2 * shift + 1)).foldl (fun tmp jo =>
    (List.range (2 * shift + 1)).foldl (fun tmp m =>
      tmp + d_src1 ((sRow - shift + jo) * cols + m + (i - shift)) *
            d_src2 ((sRow - shift + jo) * cols + (sCol - shift + m))) tmp) 0

/-- The arg-max scan of both kernels over the candidate offsets:
state `(max, max_idx)` starts at `(0, 0)` and on `tmp >= max` becomes
`(tmp, i - 1)` — the source stores `i - 1`, not `i`. -/
def corrLoop (sc : Nat → Nat) (is : List Nat) (st : Nat × Nat) : Nat × Nat :=
  is.foldl (fun st i => if sc i ≥ st.1 then (sc i, i - 1) else st) st

/-- The value the direct kernel stores into destination cell `(dRow, dCol)`. -/
def cellValue (d_src1 d_src2 : Nat → Nat) (kernel_size cols dRow dCol : Nat) : Nat :=
  (corrLoop (score d_src1 d_src2 cols kernel_size (dRow + kernel_size / 2) (dCol + kernel_size / 2))
    (offsetRange cols (kernel_size / 2)) (0, 0)).2

/-- One thread of `crossCorrelationKernel` (source lines 213–249).  Returns the
single destination store `(dPos, value)` the thread performs, `none` if the
boundary guard fails. -/
def crossCorrelationKernel (d_src1 d_src2 : Nat → Nat)
    (kernel_size matrix_src_rows matrix_src_cols : Nat)
    (blockDimX blockDimY blockIdxX blockIdxY threadIdxX threadIdxY : Nat) :
    Option (Nat × Nat) :=
  let shift_on_axis := kernel_size / 2
  let sRow := blockDimY * blockIdxY + threadIdxY + shift_on_axis
  let sCol := blockDimX * blockIdxX + threadIdxX + shift_on_axis
  let dRow := blockDimY * blockIdxY + threadIdxY
  let dCol := blockDimX * blockIdxX + threadIdxX
  let matrix_dest_cols := matrix_src_cols - (kernel_size - 1)
  let matrix_dest_rows := matrix_src_rows - (kernel_size - 1)
  let dPos := dRow * matrix_dest_cols + dCol
  if dRow < matrix_dest_rows ∧ dCol < matrix_dest_cols then
    some (dPos, (corrLoop (score d_src1 d_src2 matrix_src_cols kernel_size sRow sCol)
      (offsetRange matrix_src_cols shift_on_axis) (0, 0)).2)
  else none

/-- All `((blockIdx.x, blockIdx.y), (threadIdx.x, threadIdx.y))` of a launch,
in one fixed canonical order. -/
def gridThreads (gX gY bX bY : Nat) : List ((Nat × Nat) × Nat × Nat) :=
  (List.range gY).flatMap fun by_ =>
    (List.range gX).flatMap fun bx =>
      (List.range bY).flatMap fun ty =>
        (List.range bX).map fun tx => ((bx, by_), (tx, ty))

/-- Replay a list of `(address, value)` stores over a destination buffer.
All simultaneous stores of one launch target pairwise distinct addresses, so
the fixed order is immaterial. -/
def applyWrites (l : List (Nat × Nat)) (m : Nat → Option Nat) : Nat → Option Nat :=
  l.foldl (fun m w => fun q => if q = w.1 then some w.2 else m q) m

/-- The launch grid of `crossCorrelation` (source line 291):
`dimGrid(ceil(dest_cols / block_dim_y), ceil(dest_rows / block_dim_x), 1)`. -/
def crossCorrelationGrid (kernel_size matrix_rows matrix_cols block_dim_x block_dim_y : Nat) :
    Nat × Nat :=
  (ceilDivF (matrix_cols - (kernel_size - 1)) block_dim_y,
   ceilDivF (matrix_rows - (kernel_size - 1)) block_dim_x)

/-- All destination stores of one launch of the direct kernel, as performed by
`crossCorrelation`: `dimBlock(block_dim_y, block_dim_x, 1)` makes
`blockDim.x = block_dim_y` and `blockDim.y = block_dim_x`. -/
def crossCorrelationWrites (h_src1 h_src2 : Nat → Nat)
    (kernel_size matrix_rows matrix_cols block_dim_x block_dim_y : Nat) :
    List (Nat × Nat) :=
  (gridThreads (crossCorrelationGrid kernel_size matrix_rows matrix_cols block_dim_x block_dim_y).1
      (crossCorrelationGrid kernel_size matrix_rows matrix_cols block_dim_x block_dim_y).2
      block_dim_y block_dim_x).filterMap
    (fun q => crossCorrelationKernel h_src1 h_src2 kernel_size matrix_rows matrix_cols
      block_dim_y block_dim_x q.1.1 q.1.2 q.2.1 q.2.2)

/-- The destination buffer produced by the host function `crossCorrelation`
(source lines 275–317): it launches `crossCorrelationKernel` on the grid of
`crossCorrelationGrid` and copies the result back. -/
def crossCorrelation (h_src1 h_src2 : Nat → Nat)
    (kernel_size matrix_rows matrix_cols block_dim_x block_dim_y : Nat) :
    Nat → Option Nat :=
  applyWrites
    (crossCorrelationWrites h_src1 h_src2 kernel_size matrix_rows matrix_cols block_dim_x block_dim_y)
    (fun _ => none)

/-- The score formula exactly as the claim states it, for destination cell
`(r, c)`: `score(i) = Σ_{j=r}^{r+k-1} Σ_{m=0}^{k-1} A[j, m + (i - shift)] · B[j, c - shift + m]`,
where the claim's anchor column for B is the window centre `c_dest + shift`,
so `B`'s column is `c_dest + m`. -/
def specScore (A B : Nat → Nat) (cols kernel_size r c i : Nat) : Nat :=
  let shift := kernel_size / 2
  ∑ j ∈ Finset.range kernel_size, ∑ m ∈ Finset.range kernel_size,
    A ((r + j) * cols + (m + (i - shift))) * B ((r + j) * cols + (c + m))

/-- The winner exactly as the claim states it: the last offset `i` in scan
order whose score is greater than or equal to every score seen so far
(the greater-or-equal-replaces tie rule), i.e. the same scan but storing `i`
itself. -/
def specLastMaxOffset (sc : Nat → Nat) (is : List Nat) : Nat :=
  (is.foldl (fun (st : Nat × Nat) i => if sc i ≥ st.1 then (sc i, i) else st) (0, 0)).2

/-- An all-zero source buffer. -/
def zeroMem : Nat → Nat := fun _ => 0

/-! ### Helper lemmas -/

lemma foldl_add_eq_sum (f : Nat → Nat) : ∀ (n a : Nat),
    (List.range n).foldl (fun acc i => acc + f i) a = a + ∑ i ∈ Finset.range n, f i := by
  intro n
  induction n with
  | zero => intro a; simp
  | succ n ih =>
    intro a
    rw [List.range_succ, List.foldl_append, ih, Finset.sum_range_succ]
    simp [Nat.add_assoc]

lemma score_eq_sum (d_src1 d_src2 : Nat → Nat) (cols ks sRow sCol i : Nat) :
    score d_src1 d_src2 cols ks sRow sCol i =
      ∑ jo ∈ Finset.range (2 * (ks / 2) + 1), ∑ m ∈ Finset.range (2 * (ks / 2) + 1),
        d_src1 ((sRow - ks / 2 + jo) * cols + m + (i - ks / 2)) *
          d_src2 ((sRow - ks / 2 + jo) * cols + (sCol - ks / 2 + m)) := by
  show (List.range (2 * (ks / 2) + 1)).foldl _ 0 = _
  rw [List.foldl_ext _ (fun tmp jo => tmp + ∑ m ∈ Finset.range (2 * (ks / 2) + 1),
        d_src1 ((sRow - ks / 2 + jo) * cols + m + (i - ks / 2)) *
          d_src2 ((sRow - ks / 2 + jo) * cols + (sCol - ks / 2 + m))) 0
      (fun a b _ => foldl_add_eq_sum _ _ a)]
  rw [foldl_add_eq_sum]
  exact Nat.zero_add _

lemma corrLoop_ext (sc sc2 : Nat → Nat) (is : List Nat) (st : Nat × Nat)
    (h : ∀ i ∈ is, sc i = sc2 i) : corrLoop sc is st = corrLoop sc2 is st := by
  unfold corrLoop
  exact List.foldl_ext _ _ st (fun a b hb => by rw [h b hb])

lemma corrLoop_sub_one (sc : Nat → Nat) : ∀ (is : List Nat) (m x y : Nat), x = y - 1 →
    (corrLoop sc is (m, x)).2 =
      (is.foldl (fun (st : Nat × Nat) i => if sc i ≥ st.1 then (sc i, i) else st) (m, y)).2 - 1 := by
  intro is
  induction is with
  | nil => intro m x y h; simpa [corrLoop] using h
  | cons i is ih =>
    intro m x y h
    simp only [corrLoop, List.foldl_cons] at ih ⊢
    by_cases hc : sc i ≥ m
    · rw [if_pos hc, if_pos hc]
      exact ih _ _ _ rfl
    · rw [if_neg hc, if_neg hc]
      exact ih _ _ _ h

lemma corrLoop_zero_const : ∀ (n s x : Nat),
    (corrLoop (fun _ => 0) (List.range' s (n + 1)) (0, x)).2 = s + n - 1 := by
  intro n
  induction n with
  | zero => intro s x; simp [corrLoop]
  | succ n ih =>
    intro s x
    have hr : List.range' s (n + 1 + 1) = s :: List.range' (s + 1) (n + 1) := rfl
    rw [hr]
    simp only [corrLoop, List.foldl_cons] at ih ⊢
    rw [if_pos (Nat.le_refl 0)]
    rw [ih (s + 1) (s - 1)]
    omega

lemma score_zero (cols ks sRow sCol i : Nat) : score zeroMem zeroMem cols ks sRow sCol i = 0 := by
  rw [score_eq_sum]
  simp [zeroMem]

lemma le_ceilDivF_mul (a b : Nat) (hb : 0 < b) : a ≤ ceilDivF a b * b := by
  by_contra hlt
  push_neg at hlt
  have h1 : (ceilDivF a b + 1) * b ≤ a + b - 1 := by
    have h2 : ceilDivF a b * b + b ≤ a + b - 1 := by omega
    calc (ceilDivF a b + 1) * b = ceilDivF a b * b + b := by ring
      _ ≤ a + b - 1 := h2
  have h3 : ceilDivF a b + 1 ≤ (a + b - 1) / b := (Nat.le_div_iff_mul_le hb).2 h1
  have h4 : (a + b - 1) / b = ceilDivF a b := rfl
  omega

lemma addr_decomp (r c dc : Nat) (hc : c < dc) :
    (r * dc + c) / dc = r ∧ (r * dc + c) % dc = c := by
  have hdc : 0 < dc := Nat.lt_of_le_of_lt (Nat.zero_le c) hc
  constructor
  · rw [Nat.add_comm, Nat.add_mul_div_right c r hdc, Nat.div_eq_of_lt hc]
    omega
  · rw [Nat.add_comm, Nat.add_mul_mod_self_right, Nat.mod_eq_of_lt hc]

lemma cell_addr_lt (r c dr dc : Nat) (h1 : r < dr) (h2 : c < dc) : r * dc + c < dr * dc := by
  calc r * dc + c < r * dc + dc := by omega
    _ = (r + 1) * dc := by ring
    _ ≤ dr * dc := Nat.mul_le_mul_right dc h1

lemma row_addr_lt (jrow colp rows cols : Nat) (h1 : jrow < rows) (h2 : colp < cols) :
    jrow * cols + colp < rows * cols := cell_addr_lt jrow colp rows cols h1 h2

lemma applyWrites_cons (w : Nat × Nat) (l : List (Nat × Nat)) (m : Nat → Option Nat) :
    applyWrites (w :: l) m = applyWrites l (fun q => if q = w.1 then some w.2 else m q) := rfl

lemma applyWrites_not_mem (p : Nat) : ∀ (l : List (Nat × Nat)) (m : Nat → Option Nat),
    (∀ w ∈ l, w.1 ≠ p) → applyWrites l m p = m p := by
  intro l
  induction l with
  | nil => intro m _; rfl
  | cons w l ih =>
    intro m h
    have h1 : w.1 ≠ p := h w (List.mem_cons_self w l)
    rw [applyWrites_cons, ih _ (fun w2 hw2 => h w2 (List.mem_cons_of_mem _ hw2))]
    exact if_neg (fun he => h1 he.symm)

lemma applyWrites_mem (p v : Nat) : ∀ (l : List (Nat × Nat)) (m : Nat → Option Nat),
    (∃ w ∈ l, w.1 = p) → (∀ w ∈ l, w.1 = p → w.2 = v) → applyWrites l m p = some v := by
  intro l
  induction l with
  | nil => intro m hex _; exact absurd hex (by simp)
  | cons w l ih =>
    intro m hex hall
    rw [applyWrites_cons]
    by_cases hw : ∃ w2 ∈ l, w2.1 = p
    · exact ih _ hw (fun w2 hw2 => hall w2 (List.mem_cons_of_mem _ hw2))
    · push_neg at hw
      have h1 : w.1 = p := by
        rcases hex with ⟨w2, hw2, he⟩
        rcases List.mem_cons.1 hw2 with h | h
        · exact h ▸ he
        · exact absurd he (hw _ h)
      have h2 : w.2 = v := hall w (List.mem_cons_self w l) h1
      rw [applyWrites_not_mem p l _ hw, if_pos h1.symm, h2]

lemma mem_gridThreads (gX gY bX bY : Nat) (q : (Nat × Nat) × Nat × Nat) :
    q ∈ gridThreads gX gY bX bY ↔ q.1.1 < gX ∧ q.1.2 < gY ∧ q.2.1 < bX ∧ q.2.2 < bY := by
  obtain ⟨⟨bx, by_⟩, tx, ty⟩ := q
  simp only [gridThreads, List.mem_flatMap, List.mem_map, List.mem_range, Prod.mk.injEq]
  constructor
  · rintro ⟨b1, h1, b2, h2, t1, h3, t2, h4, ⟨he1, he2⟩, he3, he4⟩
    subst he1; subst he2; subst he3; subst he4
    exact ⟨h2, h1, h4, h3⟩
  · rintro ⟨h1, h2, h3, h4⟩
    exact ⟨by_, h2, bx, h1, ty, h4, tx, h3, ⟨rfl, rfl⟩, rfl, rfl⟩

lemma crossCorrelationKernel_eq_some (src1 src2 : Nat → Nat)
    (ks rows cols bX bY bx by_ tx ty p v : Nat) :
    crossCorrelationKernel src1 src2 ks rows cols bX bY bx by_ tx ty = some (p, v) ↔
      bY * by_ + ty < rows - (ks - 1) ∧ bX * bx + tx < cols - (ks - 1) ∧
      (bY * by_ + ty) * (cols - (ks - 1)) + (bX * bx + tx) = p ∧
      cellValue src1 src2 ks cols (bY * by_ + ty) (bX * bx + tx) = v := by
  simp only [crossCorrelationKernel, cellValue]
  by_cases h : bY * by_ + ty < rows - (ks - 1) ∧ bX * bx + tx < cols - (ks - 1)
  · rw [if_pos h]
    simp only [Option.some.injEq, Prod.mk.injEq]
    exact ⟨fun ⟨h1, h2⟩ => ⟨h.1, h.2, h1, h2⟩, fun ⟨_, _, h1, h2⟩ => ⟨h1, h2⟩⟩
  · rw [if_neg h]
    simp only [false_iff, reduceCtorEq]
    rintro ⟨h1, h2, _, _⟩
    exact h ⟨h1, h2⟩

lemma mem_crossCorrelationWrites (src1 src2 : Nat → Nat) (ks rows cols bdx bdy p v : Nat)
    (hbx : 0 < bdx) (hby : 0 < bdy) :
    (p, v) ∈ crossCorrelationWrites src1 src2 ks rows cols bdx bdy ↔
      ∃ r c, r < rows - (ks - 1) ∧ c < cols - (ks - 1) ∧
        p = r * (cols - (ks - 1)) + c ∧ v = cellValue src1 src2 ks cols r c := by
  unfold crossCorrelationWrites
  rw [List.mem_filterMap]
  constructor
  · rintro ⟨q, _, he⟩
    rw [crossCorrelationKernel_eq_some] at he
    exact ⟨bdx * q.1.2 + q.2.2, bdy * q.1.1 + q.2.1, he.1, he.2.1, he.2.2.1.symm, he.2.2.2.symm⟩
  · rintro ⟨r, c, hr, hc, hp, hv⟩
    refine ⟨((c / bdy, r / bdx), (c % bdy, r % bdx)), ?_, ?_⟩
    · rw [mem_gridThreads]
      refine ⟨?_, ?_, Nat.mod_lt c hby, Nat.mod_lt r hbx⟩
      · exact (Nat.div_lt_iff_lt_mul hby).2
          (Nat.lt_of_lt_of_le hc (le_ceilDivF_mul (cols - (ks - 1)) bdy hby))
      · exact (Nat.div_lt_iff_lt_mul hbx).2
          (Nat.lt_of_lt_of_le hr (le_ceilDivF_mul (rows - (ks - 1)) bdx hbx))
    · rw [crossCorrelationKernel_eq_some]
      have e1 : bdx * (r / bdx) + r % bdx = r := Nat.div_add_mod r bdx
      have e2 : bdy * (c / bdy) + c % bdy = c := Nat.div_add_mod c bdy
      rw [e1, e2]
      exact ⟨hr, hc, hp.symm, hv.symm⟩

/-- Every store of the launch with a given address carries the same value,
because the stored value is a function of the cell the address denotes. -/
lemma crossCorrelationWrites_value (src1 src2 : Nat → Nat) (ks rows cols bdx bdy p : Nat)
    (hbx : 0 < bdx) (hby : 0 < bdy) :
    ∀ w ∈ crossCorrelationWrites src1 src2 ks rows cols bdx bdy, w.1 = p →
      w.2 = cellValue src1 src2 ks cols (p / (cols - (ks - 1))) (p % (cols - (ks - 1))) := by
  rintro ⟨wp, wv⟩ hw hwp
  subst hwp
  rw [mem_crossCorrelationWrites src1 src2 ks rows cols bdx bdy _ _ hbx hby] at hw
  obtain ⟨r, c, _, hc, hp, hv⟩ := hw
  obtain ⟨hd, hm⟩ := addr_decomp r c (cols - (ks - 1)) hc
  rw [hp, hd, hm]
  exact hv

/-- Characterization of the buffer `crossCorrelation` produces: the written
region is exactly the `(rows-(k-1)) × (cols-(k-1))` rectangle and the value at
flat address `p` is the arg-max scan value of the cell `p` denotes. -/
lemma crossCorrelation_char (src1 src2 : Nat → Nat) (ks rows cols bdx bdy : Nat)
    (hbx : 0 < bdx) (hby : 0 < bdy) (p : Nat) :
    crossCorrelation src1 src2 ks rows cols bdx bdy p =
      if p < (rows - (ks - 1)) * (cols - (ks - 1)) then
        some (cellValue src1 src2 ks cols (p / (cols - (ks - 1))) (p % (cols - (ks - 1))))
      else none := by
  by_cases hp : p < (rows - (ks - 1)) * (cols - (ks - 1))
  · rw [if_pos hp]
    have hdc : 0 < cols - (ks - 1) := by
      rcases Nat.eq_zero_or_pos (cols - (ks - 1)) with h | h
      · rw [h, Nat.mul_zero] at hp; omega
      · exact h
    apply applyWrites_mem
    · refine ⟨(p, cellValue src1 src2 ks cols (p / (cols - (ks - 1))) (p % (cols - (ks - 1)))), ?_, rfl⟩
      rw [mem_crossCorrelationWrites src1 src2 ks rows cols bdx bdy _ _ hbx hby]
      refine ⟨p / (cols - (ks - 1)), p % (cols - (ks - 1)),
        (Nat.div_lt_iff_lt_mul hdc).2 ?_, Nat.mod_lt p hdc, ?_, rfl⟩
      · rw [Nat.mul_comm] at hp ⊢
        exact hp
      · rw [Nat.mul_comm (p / (cols - (ks - 1)))]
        exact (Nat.div_add_mod p (cols - (ks - 1))).symm
    · exact crossCorrelationWrites_value src1 src2 ks rows cols bdx bdy p hbx hby
  · rw [if_neg hp]
    apply applyWrites_not_mem
    rintro ⟨wp, wv⟩ hw
    rw [mem_crossCorrelationWrites src1 src2 ks rows cols bdx bdy _ _ hbx hby] at hw
    obtain ⟨r, c, hr, hc, hpe, _⟩ := hw
    have : wp < (rows - (ks - 1)) * (cols - (ks - 1)) := by
      rw [hpe]
      exact cell_addr_lt r c _ _ hr hc
    omega

/-- The device allocation for the destination buffer computed by
`crossCorrelation` (source lines 287–289):
`dest_size = dest_rows * dest_cols * sizeof(T)` with
`dest_rows = matrix_rows - (kernel_size - 1)` and
`dest_cols = matrix_cols - (kernel_size - 1)` (the float products involved
are exact at these magnitudes). -/
def dest_size (kernel_size matrix_rows matrix_cols sizeofT : Nat) : Nat :=
  (matrix_rows - (kernel_size - 1)) * (matrix_cols - (kernel_size - 1)) * sizeofT

lemma score_eq_specScore (src1 src2 : Nat → Nat) (cols ks r c i : Nat) (hodd : ks % 2 = 1) :
    score src1 src2 cols ks (r + ks / 2) (c + ks / 2) i = specScore src1 src2 cols ks r c i := by
  rw [score_eq_sum]
  show _ = ∑ j ∈ Finset.range ks, ∑ m ∈ Finset.range ks,
    src1 ((r + j) * cols + (m + (i - ks / 2))) * src2 ((r + j) * cols + (c + m))
  have hksum : 2 * (ks / 2) + 1 = ks := by omega
  rw [hksum]
  apply Finset.sum_congr rfl
  intro jo _
  apply Finset.sum_congr rfl
  intro m _
  have e1 : r + ks / 2 - ks / 2 + jo = r + jo := by omega
  have e2 : c + ks / 2 - ks / 2 + m = c + m := by omega
  rw [e1, e2, Nat.add_assoc]

/-- Claim C1, as stated, is false on the code: for the valid input
`rows = cols = 3`, `kernel_size = 3`, all-zero sources, the single
destination cell receives `0`, while the last offset in scan order whose
score is greater than or equal to every score seen so far is `i = 1` —
the kernel stores `i - 1`, not `i` itself. -/
theorem c1_counterexample :
    crossCorrelation zeroMem zeroMem 3 3 3 1 1 0 ≠
      some (specLastMaxOffset (score zeroMem zeroMem 3 3 1 1) (offsetRange 3 1)) := by
  decide

/-- Claim C1 (amended): for every valid input and every thread that passes the
boundary guard, the direct kernel stores into destination cell `(r, c)` the
value `w - 1`, where `w` is the last offset `i` in scan order over
`[shift, cols - shift)` whose claim-formula score is greater than or equal to
every score seen so far (greater-or-equal replaces) — one less than the
winning offset itself. -/
theorem c1_amended (src1 src2 : Nat → Nat) (ks rows cols bX bY bx by_ tx ty : Nat)
    (hodd : ks % 2 = 1)
    (hguard : bY * by_ + ty < rows - (ks - 1) ∧ bX * bx + tx < cols - (ks - 1)) :
    crossCorrelationKernel src1 src2 ks rows cols bX bY bx by_ tx ty =
      some ((bY * by_ + ty) * (cols - (ks - 1)) + (bX * bx + tx),
        specLastMaxOffset
          (specScore src1 src2 cols ks (bY * by_ + ty) (bX * bx + tx))
          (offsetRange cols (ks / 2)) - 1) := by
  refine (crossCorrelationKernel_eq_some src1 src2 ks rows cols bX bY bx by_ tx ty _ _).2
    ⟨hguard.1, hguard.2, rfl, ?_⟩
  unfold cellValue specLastMaxOffset
  rw [corrLoop_ext _ (specScore src1 src2 cols ks (bY * by_ + ty) (bX * bx + tx)) _ _
    (fun i _ => score_eq_specScore src1 src2 cols ks (bY * by_ + ty) (bX * bx + tx) i hodd)]
  exact corrLoop_sub_one _ (offsetRange cols (ks / 2)) 0 0 0 rfl

theorem c1_witness : (3 % 2 = 1 ∧ (1 * 0 + 0 < 3 - (3 - 1) ∧ 1 * 0 + 0 < 3 - (3 - 1))) ∧
    crossCorrelationKernel zeroMem zeroMem 3 3 3 1 1 0 0 0 0 =
      some ((1 * 0 + 0) * (3 - (3 - 1)) + (1 * 0 + 0),
        specLastMaxOffset (specScore zeroMem zeroMem 3 3 (1 * 0 + 0) (1 * 0 + 0))
          (offsetRange 3 (3 / 2)) - 1) :=
  ⟨⟨by decide, by decide, by decide⟩,
    c1_amended zeroMem zeroMem 3 3 3 1 1 0 0 0 0 (by decide) ⟨by decide, by decide⟩⟩

/-- Claim C3: for all valid inputs the written destination region is exactly
the `(rows-(k-1)) × (cols-(k-1))` rectangle, and the device buffer allocated
for it holds exactly `(rows-(k-1))·(cols-(k-1))` elements of size
`sizeof(T)`. -/
theorem c3_dest_dims (src1 src2 : Nat → Nat) (ks rows cols bdx bdy szT : Nat)
    (_hodd : ks % 2 = 1) (h3 : 3 ≤ ks) (_hkr : ks ≤ rows) (hkc : ks ≤ cols)
    (hbx : 0 < bdx) (hby : 0 < bdy) :
    (∀ p, (crossCorrelation src1 src2 ks rows cols bdx bdy p).isSome ↔
       ∃ r c, r < rows - (ks - 1) ∧ c < cols - (ks - 1) ∧ p = r * (cols - (ks - 1)) + c) ∧
    dest_size ks rows cols szT = (rows - (ks - 1)) * (cols - (ks - 1)) * szT := by
  constructor
  · intro p
    rw [crossCorrelation_char src1 src2 ks rows cols bdx bdy hbx hby p]
    have hdc : 0 < cols - (ks - 1) := by omega
    by_cases hp : p < (rows - (ks - 1)) * (cols - (ks - 1))
    · rw [if_pos hp]
      simp only [Option.isSome_some, true_iff]
      refine ⟨p / (cols - (ks - 1)), p % (cols - (ks - 1)),
        (Nat.div_lt_iff_lt_mul hdc).2 ?_, Nat.mod_lt p hdc, ?_⟩
      · rw [Nat.mul_comm] at hp ⊢
        exact hp
      · rw [Nat.mul_comm (p / (cols - (ks - 1)))]
        exact (Nat.div_add_mod p (cols - (ks - 1))).symm
    · rw [if_neg hp]
      simp only [Option.isSome_none, Bool.false_eq_true, false_iff]
      rintro ⟨r, c, hr, hc, hpe⟩
      exact hp (hpe ▸ cell_addr_lt r c _ _ hr hc)
  · rfl

theorem c3_witness : (3 % 2 = 1 ∧ 3 ≤ 3 ∧ 3 ≤ 4 ∧ 3 ≤ 4 ∧ 0 < 2 ∧ 0 < 2) ∧
    ((∀ p, (crossCorrelation zeroMem zeroMem 3 4 4 2 2 p).isSome ↔
       ∃ r c, r < 4 - (3 - 1) ∧ c < 4 - (3 - 1) ∧ p = r * (4 - (3 - 1)) + c) ∧
     dest_size 3 4 4 1 = (4 - (3 - 1)) * (4 - (3 - 1)) * 1) :=
  ⟨by decide,
    c3_dest_dims zeroMem zeroMem 3 4 4 2 2 1 (by decide) (by decide) (by decide) (by decide)
      (by decide) (by decide)⟩

/-- Claim C5, as stated, is false on the code: for all-zero `4×4` sources with
`kernel_size = 3` every destination cell does receive one common value, but it
is `cols - shift - 2 = 1`, not the final scan iteration's offset
`cols - shift - 1 = 2`; the kernel stores the winning `i` minus one. -/
theorem c5_counterexample :
    crossCorrelation zeroMem zeroMem 3 4 4 2 2 0 ≠ some (4 - 3 / 2 - 1) ∧
    crossCorrelation zeroMem zeroMem 3 4 4 2 2 0 = some (4 - 3 / 2 - 2) := by
  constructor
  · decide
  · decide

/-- Claim C5 (amended): for all-zero sources and any valid input, every
destination cell receives the same value, and since every score is `0` and
greater-or-equal replaces, the final scan iteration `i = cols - shift - 1`
designates the winner; the stored value is that winner minus one,
`cols - shift - 2`. -/
theorem c5_amended (ks rows cols bdx bdy p : Nat)
    (hodd : ks % 2 = 1) (h3 : 3 ≤ ks) (_hkr : ks ≤ rows) (hkc : ks ≤ cols)
    (hbx : 0 < bdx) (hby : 0 < bdy)
    (hp : p < (rows - (ks - 1)) * (cols - (ks - 1))) :
    crossCorrelation zeroMem zeroMem ks rows cols bdx bdy p = some (cols - ks / 2 - 2) := by
  rw [crossCorrelation_char zeroMem zeroMem ks rows cols bdx bdy hbx hby p, if_pos hp]
  congr 1
  unfold cellValue
  rw [corrLoop_ext _ (fun _ => 0) _ _ (fun i _ => score_zero cols ks _ _ i)]
  unfold offsetRange
  have hn : cols - ks / 2 - ks / 2 = (cols - ks / 2 - ks / 2 - 1) + 1 := by omega
  rw [hn, corrLoop_zero_const]
  omega

theorem c5_witness : (3 % 2 = 1 ∧ 3 ≤ 3 ∧ 3 ≤ 4 ∧ 3 ≤ 4 ∧ 0 < 2 ∧ 0 < 2 ∧
      3 < (4 - (3 - 1)) * (4 - (3 - 1))) ∧
    crossCorrelation zeroMem zeroMem 3 4 4 2 2 3 = some (4 - 3 / 2 - 2) :=
  ⟨by decide,
    c5_amended 3 4 4 2 2 3 (by decide) (by decide) (by decide) (by decide) (by decide)
      (by decide) (by decide)⟩

/-- Claim C10: the destination matrix computed by `crossCorrelation` is
independent of the block shape — any two positive block shapes produce the
identical destination buffer, because the per-cell computation depends only on
the cell's global coordinates and the grid always covers the destination. -/
theorem c10_block_shape_independent (src1 src2 : Nat → Nat)
    (ks rows cols bdx1 bdy1 bdx2 bdy2 : Nat)
    (hbx1 : 0 < bdx1) (hby1 : 0 < bdy1) (hbx2 : 0 < bdx2) (hby2 : 0 < bdy2) :
    crossCorrelation src1 src2 ks rows cols bdx1 bdy1 =
      crossCorrelation src1 src2 ks rows cols bdx2 bdy2 := by
  funext p
  rw [crossCorrelation_char src1 src2 ks rows cols bdx1 bdy1 hbx1 hby1 p,
    crossCorrelation_char src1 src2 ks rows cols bdx2 bdy2 hbx2 hby2 p]

theorem c10_witness : (0 < 2 ∧ 0 < 2 ∧ 0 < 1 ∧ 0 < 1) ∧
    crossCorrelation zeroMem zeroMem 3 4 4 2 2 = crossCorrelation zeroMem zeroMem 3 4 4 1 1 :=
  ⟨by decide,
    c10_block_shape_independent zeroMem zeroMem 3 4 4 2 2 1 1 (by decide) (by decide)
      (by decide) (by decide)⟩

/-- A source buffer whose only nonzero pixel is at flat address 0,
i.e. at matrix position (0, 0) — strictly inside the shift-wide border. -/
def oneAtZero : Nat → Nat := fun n => if n = 0 then 1 else 0

/-- A buffer that is zero on the first 12 addresses (rows 0–2 of a 3-row,
4-column matrix) and nonzero beyond them. -/
def beyondRows : Nat → Nat := fun n => if n < 12 then 0 else 7

/-- Claim C6, as stated, is false on the code: with `rows = 3`, `cols = 4`,
`kernel_size = 3` the pairs `(oneAtZero, zeroMem)` and `(oneAtZero, oneAtZero)`
agree on every pixel at distance ≥ shift from all four edges and differ only at
the border pixel `(0, 0)`, yet `correlate` produces different destination
values: the scan reads every source column, including the border. -/
theorem c6_counterexample :
    (∀ r, r < 3 → ∀ c, c < 4 → (1 ≤ r ∧ r < 3 - 1 ∧ 1 ≤ c ∧ c < 4 - 1) →
      zeroMem (r * 4 + c) = oneAtZero (r * 4 + c)) ∧
    crossCorrelation oneAtZero zeroMem 3 3 4 1 1 0 ≠
      crossCorrelation oneAtZero oneAtZero 3 3 4 1 1 0 := by
  constructor
  · decide
  · decide

/-- Claim C6 (amended): the destination value of cell `(r, c)` does depend on
border pixels (the scan reads every source column), but it is local to source
rows: two input pairs that agree on all pixels of rows `r .. r+k-1` (the flat
address interval `[r*cols, (r+k)*cols)`) of both sources yield the same value
at destination cell `(r, c)`. -/
theorem c6_amended (src1 src2 src1b src2b : Nat → Nat) (ks cols r c : Nat)
    (hodd : ks % 2 = 1) (_h3 : 3 ≤ ks) (hkc : ks ≤ cols) (hc : c < cols - (ks - 1))
    (h1 : ∀ a, r * cols ≤ a → a < (r + ks) * cols → src1 a = src1b a)
    (h2 : ∀ a, r * cols ≤ a → a < (r + ks) * cols → src2 a = src2b a) :
    cellValue src1 src2 ks cols r c = cellValue src1b src2b ks cols r c := by
  unfold cellValue
  rw [corrLoop_ext _ (score src1b src2b cols ks (r + ks / 2) (c + ks / 2)) _ _ ?_]
  intro i hi
  unfold offsetRange at hi
  rw [List.mem_range'_1] at hi
  rw [score_eq_sum, score_eq_sum]
  apply Finset.sum_congr rfl
  intro jo hjo
  apply Finset.sum_congr rfl
  intro m hm
  rw [Finset.mem_range] at hjo hm
  have e1 : r + ks / 2 - ks / 2 + jo = r + jo := by omega
  have e2 : c + ks / 2 - ks / 2 + m = c + m := by omega
  rw [e1, e2]
  have hmono : r * cols ≤ (r + jo) * cols := Nat.mul_le_mul_right cols (Nat.le_add_right r jo)
  have hup : (r + jo + 1) * cols ≤ (r + ks) * cols := Nat.mul_le_mul_right cols (by omega)
  have hexp : (r + jo + 1) * cols = (r + jo) * cols + cols := by ring
  have hcol1 : m + (i - ks / 2) < cols := by omega
  have hcol2 : c + m < cols := by omega
  rw [h1 ((r + jo) * cols + m + (i - ks / 2)) (by omega) (by omega),
    h2 ((r + jo) * cols + (c + m)) (by omega) (by omega)]

theorem c6_witness : (3 % 2 = 1 ∧ 3 ≤ 3 ∧ 3 ≤ 4 ∧ 0 < 4 - (3 - 1)) ∧
    cellValue oneAtZero zeroMem 3 4 0 0 = cellValue oneAtZero beyondRows 3 4 0 0 :=
  ⟨by decide,
    c6_amended oneAtZero zeroMem oneAtZero beyondRows 3 4 0 0 (by decide) (by decide)
      (by decide) (by decide) (fun _ _ _ => rfl)
      (fun a _ ha => by
        have ha2 : a < 12 := by omega
        simp [zeroMem, beyondRows, ha2])⟩

/-- Bounds-checked read of a device buffer holding `size` elements: the `none`
branch is the out-of-bounds access. -/
def readChk (mem : Nat → Nat) (size a : Nat) : Option Nat :=
  if a < size then some (mem a) else none

/-- The scan of the direct kernel with every global-memory read
bounds-checked against the `rows*cols`-element source buffers. -/
def scoreChk (d_src1 d_src2 : Nat → Nat) (rows cols ks sRow sCol i : Nat) : Option Nat :=
  (List.range (2 * (ks / 2) + 1)).foldlM (fun tmp jo =>
    (List.range (2 * (ks / 2) + 1)).foldlM (fun tmp m => do
      let x ← readChk d_src1 (rows * cols) ((sRow - ks / 2 + jo) * cols + m + (i - ks / 2))
      let y ← readChk d_src2 (rows * cols) ((sRow - ks / 2 + jo) * cols + (sCol - ks / 2 + m))
      pure (tmp + x * y)) tmp) 0

/-- The whole read-and-scan path of the direct kernel for one destination cell
with bounds-checked reads. -/
def cellValueChk (d_src1 d_src2 : Nat → Nat) (ks rows cols dRow dCol : Nat) : Option Nat := do
  let st ← (offsetRange cols (ks / 2)).foldlM (fun (st : Nat × Nat) i => do
    let s ← scoreChk d_src1 d_src2 rows cols ks (dRow + ks / 2) (dCol + ks / 2) i
    pure (if s ≥ st.1 then (s, i - 1) else st)) ((0 : Nat), (0 : Nat))
  pure st.2

lemma foldlM_eq_foldl {α β : Type} (f2 : α → β → Option α) (f : α → β → α) :
    ∀ (l : List β), (∀ a b, b ∈ l → f2 a b = some (f a b)) → ∀ a,
      l.foldlM f2 a = some (l.foldl f a) := by
  intro l
  induction l with
  | nil => intro _ a; rfl
  | cons b l ih =>
    intro h a
    show (f2 a b >>= fun a2 => l.foldlM f2 a2) = _
    rw [h a b (List.mem_cons_self b l)]
    show l.foldlM f2 (f a b) = _
    exact ih (fun a2 b2 hb2 => h a2 b2 (List.mem_cons_of_mem _ hb2)) (f a b)

lemma scoreChk_eq_score (src1 src2 : Nat → Nat) (ks rows cols dRow dCol i : Nat)
    (hodd : ks % 2 = 1) (_h3 : 3 ≤ ks) (hkr : ks ≤ rows) (hkc : ks ≤ cols)
    (hr : dRow < rows - (ks - 1)) (hc : dCol < cols - (ks - 1))
    (hilo : ks / 2 ≤ i) (hihi : i < cols - ks / 2) :
    scoreChk src1 src2 rows cols ks (dRow + ks / 2) (dCol + ks / 2) i =
      some (score src1 src2 cols ks (dRow + ks / 2) (dCol + ks / 2) i) := by
  unfold scoreChk
  have hstep : ∀ (a jo : Nat), jo ∈ List.range (2 * (ks / 2) + 1) →
      (List.range (2 * (ks / 2) + 1)).foldlM (fun tmp m => do
        let x ← readChk src1 (rows * cols)
          ((dRow + ks / 2 - ks / 2 + jo) * cols + m + (i - ks / 2))
        let y ← readChk src2 (rows * cols)
          ((dRow + ks / 2 - ks / 2 + jo) * cols + (dCol + ks / 2 - ks / 2 + m))
        pure (tmp + x * y)) a =
      some ((List.range (2 * (ks / 2) + 1)).foldl (fun tmp m =>
        tmp + src1 ((dRow + ks / 2 - ks / 2 + jo) * cols + m + (i - ks / 2)) *
              src2 ((dRow + ks / 2 - ks / 2 + jo) * cols + (dCol + ks / 2 - ks / 2 + m))) a) := by
    intro a jo hjo
    apply foldlM_eq_foldl
    intro tmp m hm
    rw [List.mem_range] at hjo hm
    have e1 : dRow + ks / 2 - ks / 2 + jo = dRow + jo := by omega
    have hrow : dRow + jo < rows := by omega
    have hcol1 : m + (i - ks / 2) < cols := by omega
    have hcol2 : dCol + ks / 2 - ks / 2 + m < cols := by omega
    have hb0 := row_addr_lt (dRow + jo) (m + (i - ks / 2)) rows cols hrow hcol1
    have hb0b := row_addr_lt (dRow + jo) (dCol + ks / 2 - ks / 2 + m) rows cols hrow hcol2
    have hb1 : (dRow + ks / 2 - ks / 2 + jo) * cols + m + (i - ks / 2) < rows * cols := by
      rw [e1]; omega
    have hb2 : (dRow + ks / 2 - ks / 2 + jo) * cols + (dCol + ks / 2 - ks / 2 + m) <
        rows * cols := by
      rw [e1]; omega
    have hb1s : (dRow + jo) * cols + m + (i - ks / 2) < rows * cols := by omega
    have hb2s : (dRow + jo) * cols + (dCol + m) < rows * cols := by omega
    simp [readChk, hb1, hb2, hb1s, hb2s]
  rw [foldlM_eq_foldl _ (fun tmp jo =>
    (List.range (2 * (ks / 2) + 1)).foldl (fun tmp m =>
      tmp + src1 ((dRow + ks / 2 - ks / 2 + jo) * cols + m + (i - ks / 2)) *
            src2 ((dRow + ks / 2 - ks / 2 + jo) * cols + (dCol + ks / 2 - ks / 2 + m))) tmp)
    _ hstep 0]
  rfl

/-- Claim C9: for every direct-kernel thread that passes the boundary guard
and sources of size `rows*cols` (with the stated preconditions), every index
the kernel uses to read `d_src1` and `d_src2` is in bounds: the bounds-checked
read-and-scan path returns `some` of the unchecked kernel value — the
out-of-bounds branch is unreachable. -/
theorem c9_reads_in_bounds (src1 src2 : Nat → Nat) (ks rows cols dRow dCol : Nat)
    (hodd : ks % 2 = 1) (h3 : 3 ≤ ks) (hkr : ks ≤ rows) (hkc : ks ≤ cols)
    (hr : dRow < rows - (ks - 1)) (hc : dCol < cols - (ks - 1)) :
    cellValueChk src1 src2 ks rows cols dRow dCol =
      some (cellValue src1 src2 ks cols dRow dCol) := by
  unfold cellValueChk cellValue
  have hstep : ∀ (st : Nat × Nat) (i : Nat), i ∈ offsetRange cols (ks / 2) →
      (do
        let s ← scoreChk src1 src2 rows cols ks (dRow + ks / 2) (dCol + ks / 2) i
        pure (if s ≥ st.1 then (s, i - 1) else st)) =
      some (if score src1 src2 cols ks (dRow + ks / 2) (dCol + ks / 2) i ≥ st.1 then
        (score src1 src2 cols ks (dRow + ks / 2) (dCol + ks / 2) i, i - 1) else st) := by
    intro st i hi
    unfold offsetRange at hi
    rw [List.mem_range'_1] at hi
    rw [scoreChk_eq_score src1 src2 ks rows cols dRow dCol i hodd h3 hkr hkc hr hc hi.1
      (by omega)]
    rfl
  rw [foldlM_eq_foldl _ (fun (st : Nat × Nat) i =>
    if score src1 src2 cols ks (dRow + ks / 2) (dCol + ks / 2) i ≥ st.1 then
      (score src1 src2 cols ks (dRow + ks / 2) (dCol + ks / 2) i, i - 1) else st)
    _ hstep ((0 : Nat), (0 : Nat))]
  rfl

theorem c9_witness : (3 % 2 = 1 ∧ 3 ≤ 3 ∧ 3 ≤ 4 ∧ 3 ≤ 4 ∧ 0 < 4 - (3 - 1) ∧ 1 < 4 - (3 - 1)) ∧
    cellValueChk oneAtZero zeroMem 3 4 4 0 1 = some (cellValue oneAtZero zeroMem 3 4 0 1) :=
  ⟨by decide,
    c9_reads_in_bounds oneAtZero zeroMem 3 4 4 0 1 (by decide) (by decide) (by decide)
      (by decide) (by decide) (by decide)⟩

/-- The launch grid of `crossCorrelationTimeWithAllocation` (source line 581):
`dimGrid(ceil(dest_cols / dim_block_y), ceil(dest_rows / dim_block_x), 1)`. -/
def crossCorrelationTimeWithAllocationGrid
    (kernel_size matrix_rows matrix_cols dim_block_x dim_block_y : Nat) : Nat × Nat :=
  (ceilDivF (matrix_cols - (kernel_size - 1)) dim_block_y,
   ceilDivF (matrix_rows - (kernel_size - 1)) dim_block_x)

/-- The launch grid of `crossCorrelationTimeWithoutAllocation` (source line
668): same formula as the plain and timed-with-transfers variants. -/
def crossCorrelationTimeWithoutAllocationGrid
    (kernel_size matrix_rows matrix_cols dim_block_x dim_block_y : Nat) : Nat × Nat :=
  (ceilDivF (matrix_cols - (kernel_size - 1)) dim_block_y,
   ceilDivF (matrix_rows - (kernel_size - 1)) dim_block_x)

/-- The launch grid of `sharedMemoryCrossCorrelation` (source line 514):
`dimGrid(ceil(float(matrix_cols) / block_dim_y), ceil(float(matrix_rows) / block_dim_x), 1)`
— computed from the *source* dimensions, not the destination dimensions. -/
def sharedMemoryCrossCorrelationGrid
    (matrix_rows matrix_cols block_dim_x block_dim_y : Nat) : Nat × Nat :=
  (ceilDivF matrix_cols block_dim_y, ceilDivF matrix_rows block_dim_x)

/-- Claim C7, as stated, is false on the code: for `rows = cols = 10`,
`kernel_size = 3`, tile `8 × 8`, the shared-memory orchestrator computes grid
`(2, 2)` from the source dimensions, not the claimed
`ceil(dest_cols/tile_h) × ceil(dest_rows/tile_w) = (1, 1)`. -/
theorem c7_counterexample :
    sharedMemoryCrossCorrelationGrid 10 10 8 8 ≠
      (ceilDivF (10 - (3 - 1)) 8, ceilDivF (10 - (3 - 1)) 8) := by
  decide

/-- Claim C7 (amended): the plain, timed-with-transfers and timed-compute-only
orchestrators compute the grid `ceil(dest_cols/tile_h) × ceil(dest_rows/tile_w)`,
and each such grid covers the destination; the shared-memory orchestrator
instead computes `ceil(src_cols/tile_h) × ceil(src_rows/tile_w)`, which covers
the source. -/
theorem c7_amended (ks rows cols bdx bdy : Nat) (hbx : 0 < bdx) (hby : 0 < bdy) :
    crossCorrelationGrid ks rows cols bdx bdy =
        (ceilDivF (cols - (ks - 1)) bdy, ceilDivF (rows - (ks - 1)) bdx) ∧
    crossCorrelationTimeWithAllocationGrid ks rows cols bdx bdy =
        (ceilDivF (cols - (ks - 1)) bdy, ceilDivF (rows - (ks - 1)) bdx) ∧
    crossCorrelationTimeWithoutAllocationGrid ks rows cols bdx bdy =
        (ceilDivF (cols - (ks - 1)) bdy, ceilDivF (rows - (ks - 1)) bdx) ∧
    sharedMemoryCrossCorrelationGrid rows cols bdx bdy =
        (ceilDivF cols bdy, ceilDivF rows bdx) ∧
    cols - (ks - 1) ≤ (crossCorrelationGrid ks rows cols bdx bdy).1 * bdy ∧
    rows - (ks - 1) ≤ (crossCorrelationGrid ks rows cols bdx bdy).2 * bdx ∧
    cols ≤ (sharedMemoryCrossCorrelationGrid rows cols bdx bdy).1 * bdy ∧
    rows ≤ (sharedMemoryCrossCorrelationGrid rows cols bdx bdy).2 * bdx :=
  ⟨rfl, rfl, rfl, rfl, le_ceilDivF_mul _ _ hby, le_ceilDivF_mul _ _ hbx,
    le_ceilDivF_mul _ _ hby, le_ceilDivF_mul _ _ hbx⟩

theorem c7_witness : (0 < 8 ∧ 0 < 8) ∧
    (crossCorrelationGrid 3 10 10 8 8 =
        (ceilDivF (10 - (3 - 1)) 8, ceilDivF (10 - (3 - 1)) 8) ∧
     crossCorrelationTimeWithAllocationGrid 3 10 10 8 8 =
        (ceilDivF (10 - (3 - 1)) 8, ceilDivF (10 - (3 - 1)) 8) ∧
     crossCorrelationTimeWithoutAllocationGrid 3 10 10 8 8 =
        (ceilDivF (10 - (3 - 1)) 8, ceilDivF (10 - (3 - 1)) 8) ∧
     sharedMemoryCrossCorrelationGrid 10 10 8 8 = (ceilDivF 10 8, ceilDivF 10 8) ∧
     10 - (3 - 1) ≤ (crossCorrelationGrid 3 10 10 8 8).1 * 8 ∧
     10 - (3 - 1) ≤ (crossCorrelationGrid 3 10 10 8 8).2 * 8 ∧
     10 ≤ (sharedMemoryCrossCorrelationGrid 10 10 8 8).1 * 8 ∧
     10 ≤ (sharedMemoryCrossCorrelationGrid 10 10 8 8).2 * 8) :=
  ⟨by decide, c7_amended 3 10 10 8 8 (by decide) (by decide)⟩

/-- The device-API calls `crossCorrelation` makes, in program order. -/
inductive CudaOp where
  | mallocSrc1 | memcpyH2DSrc1 | mallocSrc2 | memcpyH2DSrc2 | mallocDest
  | kernelLaunch | deviceSync | memcpyD2HDest | freeSrc1 | freeSrc2 | freeDest
deriving DecidableEq

/-- The diagnostic `checkCudaError` emits before terminating the process:
operation name, device-supplied error description, source line. -/
structure CudaDiag where
  func : String
  desc : String
  line : Nat
deriving DecidableEq

def cudaMallocName : String := "cudaMalloc"
def cudaMemcpyName : String := "cudaMemcpy"
def noDesc : String := ""

/-- `checkCudaError` (source lines 186–192): on a non-success status it
reports the operation name, `cudaGetErrorString(err)` (modelled by the
device-supplied map `errStr`) and the source line, then exits with failure —
modelled as an `Except` error carrying the diagnostic. -/
def checkCudaError (errStr : Nat → String) (err : Nat) (func : String) (line : Nat) :
    Except CudaDiag Unit :=
  if err ≠ 0 then Except.error ⟨func, errStr err, line⟩ else Except.ok ()

/-- The sequence of device-API calls of `crossCorrelation` (source lines
294–316), driven by an oracle giving each call's returned status.  The five
allocations/copies and the copy-out go through `checkCudaError`; the kernel
launch (309), `cudaDeviceSynchronize` (311) and the three `cudaFree` (316)
have their statuses discarded, exactly as in the source. -/
def crossCorrelationTrace (errStr : Nat → String) (oracle : CudaOp → Nat) :
    Except CudaDiag Unit := do
  checkCudaError errStr (oracle CudaOp.mallocSrc1) cudaMallocName 295
  checkCudaError errStr (oracle CudaOp.memcpyH2DSrc1) cudaMemcpyName 298
  checkCudaError errStr (oracle CudaOp.mallocSrc2) cudaMallocName 301
  checkCudaError errStr (oracle CudaOp.memcpyH2DSrc2) cudaMemcpyName 304
  checkCudaError errStr (oracle CudaOp.mallocDest) cudaMallocName 307
  let _ := oracle CudaOp.kernelLaunch
  let _ := oracle CudaOp.deviceSync
  checkCudaError errStr (oracle CudaOp.memcpyD2HDest) cudaMemcpyName 314
  let _ := oracle CudaOp.freeSrc1
  let _ := oracle CudaOp.freeSrc2
  let _ := oracle CudaOp.freeDest
  pure ()

/-- An oracle on which exactly one call fails with status `e`. -/
def failOnly (op : CudaOp) (e : Nat) : CudaOp → Nat := fun op2 => if op2 = op then e else 0

/-- Claim C8, as stated, is false on the code: a failure of the kernel launch,
of `cudaDeviceSynchronize`, or of a `cudaFree` is never examined — the
orchestrator completes normally, emits no diagnostic and does not terminate. -/
theorem c8_counterexample :
    crossCorrelationTrace (fun _ => noDesc) (failOnly CudaOp.deviceSync 1) = Except.ok () ∧
    crossCorrelationTrace (fun _ => noDesc) (failOnly CudaOp.kernelLaunch 1) = Except.ok () ∧
    crossCorrelationTrace (fun _ => noDesc) (failOnly CudaOp.freeDest 1) = Except.ok () :=
  ⟨rfl, rfl, rfl⟩

/-- Claim C8 (amended): the three allocations and three copies are each
individually checked — a failing status among them makes the orchestrator
report that operation's name, the device-supplied description and the source
line and terminate — but the kernel launch, the synchronization and the three
frees are not checked, and when only unchecked calls fail the orchestrator
completes normally. -/
theorem c8_amended (errStr : Nat → String) (e : Nat) (he : e ≠ 0) :
    crossCorrelationTrace errStr (failOnly CudaOp.mallocSrc1 e) =
        Except.error ⟨cudaMallocName, errStr e, 295⟩ ∧
    crossCorrelationTrace errStr (failOnly CudaOp.memcpyH2DSrc1 e) =
        Except.error ⟨cudaMemcpyName, errStr e, 298⟩ ∧
    crossCorrelationTrace errStr (failOnly CudaOp.mallocSrc2 e) =
        Except.error ⟨cudaMallocName, errStr e, 301⟩ ∧
    crossCorrelationTrace errStr (failOnly CudaOp.memcpyH2DSrc2 e) =
        Except.error ⟨cudaMemcpyName, errStr e, 304⟩ ∧
    crossCorrelationTrace errStr (failOnly CudaOp.mallocDest e) =
        Except.error ⟨cudaMallocName, errStr e, 307⟩ ∧
    crossCorrelationTrace errStr (failOnly CudaOp.memcpyD2HDest e) =
        Except.error ⟨cudaMemcpyName, errStr e, 314⟩ ∧
    (∀ oracle : CudaOp → Nat,
      oracle CudaOp.mallocSrc1 = 0 → oracle CudaOp.memcpyH2DSrc1 = 0 →
      oracle CudaOp.mallocSrc2 = 0 → oracle CudaOp.memcpyH2DSrc2 = 0 →
      oracle CudaOp.mallocDest = 0 → oracle CudaOp.memcpyD2HDest = 0 →
      crossCorrelationTrace errStr oracle = Except.ok ()) := by
  refine ⟨?_, ?_, ?_, ?_, ?_, ?_, ?_⟩
  · simp [crossCorrelationTrace, checkCudaError, failOnly, he, Bind.bind, Except.bind]
  · simp [crossCorrelationTrace, checkCudaError, failOnly, he, Bind.bind, Except.bind]
  · simp [crossCorrelationTrace, checkCudaError, failOnly, he, Bind.bind, Except.bind]
  · simp [crossCorrelationTrace, checkCudaError, failOnly, he, Bind.bind, Except.bind]
  · simp [crossCorrelationTrace, checkCudaError, failOnly, he, Bind.bind, Except.bind]
  · simp [crossCorrelationTrace, checkCudaError, failOnly, he, Bind.bind, Except.bind]
  · intro oracle h1 h2 h3 h4 h5 h6
    simp [crossCorrelationTrace, checkCudaError, h1, h2, h3, h4, h5, h6, Bind.bind, Except.bind]
    rfl

theorem c8_witness : ((1 : Nat) ≠ 0) ∧
    crossCorrelationTrace (fun _ => noDesc) (failOnly CudaOp.mallocSrc1 1) =
      Except.error ⟨cudaMallocName, noDesc, 295⟩ :=
  ⟨by decide, (c8_amended (fun _ => noDesc) 1 (by decide)).1⟩

/-! ### Shared-memory tiled kernel (source lines 339–471)

The staging phase is embedded as the list of shared-memory stores each thread
performs (the commented-out alternatives in the source are dead code and are
not modelled); the barrier is modelled by computing the complete staged shared
buffer before any compute-phase read.  Device shared memory is uninitialized;
unwritten cells are modelled as `0`, and the concurrent stores are serialized
in one fixed order (in the configurations exercised below, every cell read by
the compute phase is staged, and colliding stores carry equal values).  The
debug `printf` block (lines 436–452) only reads and prints and is omitted. -/

/-- `int((float(matrix_src_cols - 1) / blockDim.x) + 1)`, the staging loop
bound (exact at these magnitudes). -/
def stageIters (cols bX : Nat) : Nat := (cols - 1) / bX + 1

/-- The `i` values of the staging loop
`for (i = 0; i < stageIters && ((i * blockDim.x) + threadIdx.x) < cols; i++)`:
the second conjunct is monotone in `i`, so the filtered range equals the
values the loop visits. -/
def stageIdx (cols bX tx : Nat) : List Nat :=
  (List.range (stageIters cols bX)).filter (fun i => i * bX + tx < cols)

/-- The shared-memory stores of one staging-phase thread of
`sharedMemoryCrossCorrelationKernel` (source lines 381–419).  Addresses are
offsets into the single dynamic shared allocation: `d_shmem1` starts at `0`
and `d_shmem2` at `(blockDim.y + 2*(kernel_size/2)) * matrix_src_cols`.
In the `blockIdx.x == blockDim.x - 1` branch, `k` starts at
`(blockDim.x - 1) - kernel_size/2`, which as `size_t` wraps around when
`blockDim.x - 1 < kernel_size/2`, making `k <= kernel_size/2` fail at once —
modelled by the explicit emptiness guard. -/
def sharedMemoryStageWrites (d_src1 d_src2 : Nat → Nat) (kernel_size cols : Nat)
    (bX bY bIdxX bIdxY tx ty : Nat) : List (Nat × Nat) :=
  let sRow := bY * bIdxY + ty
  let base2 := (bY + 2 * (kernel_size / 2)) * cols
  if bIdxX = 0 then
    ((stageIdx cols bX tx).flatMap (fun i =>
      [((i * bX + tx) + ty * cols, d_src1 ((i * bX + tx) + sRow * cols)),
       (base2 + ((i * bX + tx) + ty * cols), d_src2 ((i * bX + tx) + sRow * cols))])) ++
    (if tx = bY - 1 then
      (List.range' 1 (kernel_size / 2)).flatMap (fun j =>
        (stageIdx cols bX tx).flatMap (fun i =>
          [((i * bX + tx) + ty * cols + j * cols,
            d_src1 ((i * bX + tx) + sRow * cols + j * cols)),
           (base2 + ((i * bX + tx) + ty * cols + j * cols),
            d_src2 ((i * bX + tx) + sRow * cols + j * cols))]))
     else [])
  else if bIdxX = bX - 1 then
    (if tx = 0 then
      (if bX - 1 < kernel_size / 2 then [] else
        ((List.range (kernel_size / 2)).filter
            (fun j => (bX - 1) - kernel_size / 2 + j ≤ kernel_size / 2)).flatMap (fun j =>
          (stageIdx cols bX tx).flatMap (fun i =>
            [((i * bX + tx) + ty * cols,
              d_src1 ((i * bX + tx) + sRow * cols + ((bX - 1) - kernel_size / 2 + j) * cols)),
             (base2 + ((i * bX + tx) + ty * cols),
              d_src2 ((i * bX + tx) + sRow * cols + ((bX - 1) - kernel_size / 2 + j) * cols))])))
     else []) ++
    ((stageIdx cols bX tx).flatMap (fun i =>
      [((i * bX + tx) + ty * cols + (kernel_size / 2) * cols,
        d_src1 ((i * bX + tx) + sRow * cols + (kernel_size / 2 + 1) * cols)),
       (base2 + ((i * bX + tx) + ty * cols + (kernel_size / 2) * cols),
        d_src2 ((i * bX + tx) + sRow * cols + (kernel_size / 2 + 1) * cols))]))
  else []

/-- Replay shared-memory stores over the (uninitialized, modelled as zero)
shared buffer. -/
def applyStores (l : List (Nat × Nat)) (m : Nat → Nat) : Nat → Nat :=
  l.foldl (fun m w => fun q => if q = w.1 then w.2 else m q) m

/-- The shared buffer of block `(bIdxX, bIdxY)` after staging and the
`__syncthreads()` barrier. -/
def shmemOf (d_src1 d_src2 : Nat → Nat) (kernel_size cols bX bY bIdxX bIdxY : Nat) :
    Nat → Nat :=
  applyStores
    ((List.range bY).flatMap (fun ty => (List.range bX).flatMap (fun tx =>
      sharedMemoryStageWrites d_src1 d_src2 kernel_size cols bX bY bIdxX bIdxY tx ty)))
    (fun _ => 0)

/-- The compute phase of one thread of `sharedMemoryCrossCorrelationKernel`
(source lines 425–470), reading operands from the staged shared buffer.  Its
row loop runs over `j < blockDim.y` (not the kernel height), its guard is
`sRow <= dest_rows && sCol <= dest_cols && sRow >= shift && sCol >= shift`,
and it stores `max_idx = i - 1` at `dPos = (sRow-shift)*dest_cols +
(sCol-shift)` (the `size_t` underflow of `dRow`/`dCol` cannot reach the store:
the guard forces `sRow ≥ shift` and `sCol ≥ shift`). -/
def sharedMemoryCrossCorrelationKernel (d_shmem : Nat → Nat)
    (kernel_size matrix_src_rows matrix_src_cols : Nat)
    (blockDimX blockDimY blockIdxX blockIdxY threadIdxX threadIdxY : Nat) :
    Option (Nat × Nat) :=
  let sRow := blockDimY * blockIdxY + threadIdxY
  let sCol := blockDimX * blockIdxX + threadIdxX
  let base2 := (blockDimY + 2 * (kernel_size / 2)) * matrix_src_cols
  let shift_on_axis := kernel_size / 2
  let dRow := sRow - shift_on_axis
  let dCol := sCol - shift_on_axis
  let matrix_dest_cols := matrix_src_cols - (kernel_size - 1)
  let matrix_dest_rows := matrix_src_rows - (kernel_size - 1)
  let dPos := dRow * matrix_dest_cols + dCol
  if sRow ≤ matrix_dest_rows ∧ sCol ≤ matrix_dest_cols ∧
      shift_on_axis ≤ sRow ∧ shift_on_axis ≤ sCol then
    some (dPos, (corrLoop (fun i =>
      (List.range blockDimY).foldl (fun tmp j =>
        (List.range (2 * (kernel_size / 2) + 1)).foldl (fun tmp m =>
          tmp + d_shmem ((j * matrix_src_cols) + m + (i - shift_on_axis)) *
                d_shmem (base2 + ((j * matrix_src_cols) + (sCol - shift_on_axis + m)))) tmp) 0)
      (offsetRange matrix_src_cols shift_on_axis) (0, 0)).2)
  else none

/-- All destination stores of one launch of the tiled kernel, as performed by
`sharedMemoryCrossCorrelation` (source lines 498–540): grid
`sharedMemoryCrossCorrelationGrid`, `dimBlock(block_dim_y, block_dim_x, 1)`. -/
def sharedMemoryCrossCorrelationWrites (h_src1 h_src2 : Nat → Nat)
    (kernel_size matrix_rows matrix_cols block_dim_x block_dim_y : Nat) :
    List (Nat × Nat) :=
  (gridThreads (sharedMemoryCrossCorrelationGrid matrix_rows matrix_cols block_dim_x block_dim_y).1
      (sharedMemoryCrossCorrelationGrid matrix_rows matrix_cols block_dim_x block_dim_y).2
      block_dim_y block_dim_x).filterMap
    (fun q => sharedMemoryCrossCorrelationKernel
      (shmemOf h_src1 h_src2 kernel_size matrix_cols block_dim_y block_dim_x q.1.1 q.1.2)
      kernel_size matrix_rows matrix_cols block_dim_y block_dim_x q.1.1 q.1.2 q.2.1 q.2.2)

/-- The destination buffer produced by the host function
`sharedMemoryCrossCorrelation`. -/
def sharedMemoryCrossCorrelation (h_src1 h_src2 : Nat → Nat)
    (kernel_size matrix_rows matrix_cols block_dim_x block_dim_y : Nat) :
    Nat → Option Nat :=
  applyWrites
    (sharedMemoryCrossCorrelationWrites h_src1 h_src2 kernel_size matrix_rows matrix_cols
      block_dim_x block_dim_y)
    (fun _ => none)

lemma cell_decomp_unique (dc r1 c1 r2 c2 : Nat) (h1 : c1 < dc) (h2 : c2 < dc)
    (he : r1 * dc + c1 = r2 * dc + c2) : r1 = r2 ∧ c1 = c2 := by
  have d1 := addr_decomp r1 c1 dc h1
  have d2 := addr_decomp r2 c2 dc h2
  exact ⟨by rw [← d1.1, he, d2.1], by rw [← d1.2, he, d2.2]⟩

lemma block_decomp_unique (b a1 t1 a2 t2 : Nat) (h1 : t1 < b) (h2 : t2 < b)
    (he : b * a1 + t1 = b * a2 + t2) : a1 = a2 ∧ t1 = t2 := by
  have he2 : a1 * b + t1 = a2 * b + t2 := by
    rw [Nat.mul_comm a1 b, Nat.mul_comm a2 b]; exact he
  exact cell_decomp_unique b a1 t1 a2 t2 h1 h2 he2

lemma sharedMemoryCrossCorrelationKernel_some (d_shmem : Nat → Nat)
    (ks rows cols bX bY bx by_ tx ty p v : Nat)
    (h : sharedMemoryCrossCorrelationKernel d_shmem ks rows cols bX bY bx by_ tx ty =
      some (p, v)) :
    bY * by_ + ty ≤ rows - (ks - 1) ∧ bX * bx + tx ≤ cols - (ks - 1) ∧
    ks / 2 ≤ bY * by_ + ty ∧ ks / 2 ≤ bX * bx + tx ∧
    p = (bY * by_ + ty - ks / 2) * (cols - (ks - 1)) + (bX * bx + tx - ks / 2) := by
  simp only [sharedMemoryCrossCorrelationKernel] at h
  by_cases hg : bY * by_ + ty ≤ rows - (ks - 1) ∧ bX * bx + tx ≤ cols - (ks - 1) ∧
      ks / 2 ≤ bY * by_ + ty ∧ ks / 2 ≤ bX * bx + tx
  · rw [if_pos hg] at h
    simp only [Option.some.injEq, Prod.mk.injEq] at h
    exact ⟨hg.1, hg.2.1, hg.2.2.1, hg.2.2.2, h.1.symm⟩
  · rw [if_neg hg] at h
    exact absurd h (by simp)

/-- The sources used by the claim-C2 failing input: a `5×4` matrix with ones
in column 0 of rows 0–2 and twos in column 3 of rows 3–4, against an all-one
matrix. -/
def c2src1 : Nat → Nat := fun n =>
  [1, 0, 0, 0, 1, 0, 0, 0, 1, 0, 0, 0, 0, 0, 0, 2, 0, 0, 0, 2].getD n 0

/-- An all-one source buffer. -/
def onesMem : Nat → Nat := fun _ => 1

/-- Claim C2 is the intent, and the code violates it: for the valid input
`rows = 5`, `cols = 4`, `kernel_size = 3`, block `5 × 4`, on the sources
`c2src1`/`onesMem` the direct kernel stores `0` into destination cell
`(0, 0)` (its window spans source rows 0–2, where offset 1 scores 3 and
offset 2 scores 0), while the tiled kernel stores `1` (its row loop runs over
`j < blockDim.y = 5` rows, where offset 2 scores 4 ≥ 3): the two launches are
not bit-identical. -/
theorem c2_failing_eval :
    crossCorrelation c2src1 onesMem 3 5 4 5 4 0 = some 0 ∧
    sharedMemoryCrossCorrelation c2src1 onesMem 3 5 4 5 4 0 = some 1 := by
  constructor
  · decide
  · decide

/-- Claim C4, as stated, is false on the code: for the valid input
`rows = cols = 5`, `kernel_size = 5` (so `shift = 2`), block `4 × 4`, the
tiled kernel's guard `sRow <= dest_rows && sRow >= shift` (`dest_rows = 1`)
rejects every thread, so the single destination cell is never written. -/
theorem c4_counterexample :
    sharedMemoryCrossCorrelation zeroMem zeroMem 5 5 5 4 4 0 = none := by
  decide

/-- Claim C4 (amended): for the direct kernel on the orchestrator's grid,
every destination cell is written by exactly one thread and no thread stores
outside the destination; for the tiled kernel every store lands inside the
destination and no two distinct threads store to the same cell, but (as the
counterexample shows) some cells may be written by no thread when
`shift ≥ 2`. -/
theorem c4_amended (src1 src2 : Nat → Nat) (ks rows cols bdx bdy : Nat)
    (_hodd : ks % 2 = 1) (h3 : 3 ≤ ks) (_hkr : ks ≤ rows) (_hkc : ks ≤ cols)
    (hbx : 0 < bdx) (hby : 0 < bdy) :
    (∀ r c, r < rows - (ks - 1) → c < cols - (ks - 1) →
      ∃! q : (Nat × Nat) × Nat × Nat,
        q ∈ gridThreads (crossCorrelationGrid ks rows cols bdx bdy).1
            (crossCorrelationGrid ks rows cols bdx bdy).2 bdy bdx ∧
        ∃ v, crossCorrelationKernel src1 src2 ks rows cols bdy bdx q.1.1 q.1.2 q.2.1 q.2.2 =
          some (r * (cols - (ks - 1)) + c, v)) ∧
    (∀ bx by_ tx ty p v,
      crossCorrelationKernel src1 src2 ks rows cols bdy bdx bx by_ tx ty = some (p, v) →
      p < (rows - (ks - 1)) * (cols - (ks - 1))) ∧
    (∀ shm bx by_ tx ty p v,
      sharedMemoryCrossCorrelationKernel shm ks rows cols bdy bdx bx by_ tx ty = some (p, v) →
      p < (rows - (ks - 1)) * (cols - (ks - 1))) ∧
    (∀ shm shm2 bx by_ tx ty bx2 by2 tx2 ty2 p v v2,
      tx < bdy → ty < bdx → tx2 < bdy → ty2 < bdx →
      sharedMemoryCrossCorrelationKernel shm ks rows cols bdy bdx bx by_ tx ty = some (p, v) →
      sharedMemoryCrossCorrelationKernel shm2 ks rows cols bdy bdx bx2 by2 tx2 ty2 =
        some (p, v2) →
      bx = bx2 ∧ by_ = by2 ∧ tx = tx2 ∧ ty = ty2) := by
  refine ⟨?_, ?_, ?_, ?_⟩
  · intro r c hr hc
    refine ⟨((c / bdy, r / bdx), (c % bdy, r % bdx)), ⟨?_, ?_⟩, ?_⟩
    · rw [mem_gridThreads]
      exact ⟨(Nat.div_lt_iff_lt_mul hby).2 (Nat.lt_of_lt_of_le hc (le_ceilDivF_mul _ _ hby)),
        (Nat.div_lt_iff_lt_mul hbx).2 (Nat.lt_of_lt_of_le hr (le_ceilDivF_mul _ _ hbx)),
        Nat.mod_lt c hby, Nat.mod_lt r hbx⟩
    · refine ⟨cellValue src1 src2 ks cols r c, ?_⟩
      rw [crossCorrelationKernel_eq_some]
      have e1 : bdx * (r / bdx) + r % bdx = r := Nat.div_add_mod r bdx
      have e2 : bdy * (c / bdy) + c % bdy = c := Nat.div_add_mod c bdy
      rw [e1, e2]
      exact ⟨hr, hc, rfl, rfl⟩
    · rintro ⟨⟨bx2, by2⟩, tx2, ty2⟩ ⟨hmem, v2, hw⟩
      rw [mem_gridThreads] at hmem
      rw [crossCorrelationKernel_eq_some] at hw
      obtain ⟨_, hgx, haddr, _⟩ := hw
      obtain ⟨hre, hce⟩ := cell_decomp_unique (cols - (ks - 1)) (bdx * by2 + ty2)
        (bdy * bx2 + tx2) r c hgx hc haddr
      have e1 : bdx * (r / bdx) + r % bdx = r := Nat.div_add_mod r bdx
      have e2 : bdy * (c / bdy) + c % bdy = c := Nat.div_add_mod c bdy
      obtain ⟨hby2, hty2⟩ := block_decomp_unique bdx by2 ty2 (r / bdx) (r % bdx)
        hmem.2.2.2 (Nat.mod_lt r hbx) (hre.trans e1.symm)
      obtain ⟨hbx2, htx2⟩ := block_decomp_unique bdy bx2 tx2 (c / bdy) (c % bdy)
        hmem.2.2.1 (Nat.mod_lt c hby) (hce.trans e2.symm)
      subst hbx2; subst hby2; subst htx2; subst hty2
      rfl
  · intro bx by_ tx ty p v hw
    rw [crossCorrelationKernel_eq_some] at hw
    obtain ⟨hgy, hgx, haddr, _⟩ := hw
    rw [← haddr]
    exact cell_addr_lt _ _ _ _ hgy hgx
  · intro shm bx by_ tx ty p v hw
    obtain ⟨h1, h2, h3s, h4s, hp⟩ :=
      sharedMemoryCrossCorrelationKernel_some shm ks rows cols bdy bdx bx by_ tx ty p v hw
    rw [hp]
    apply cell_addr_lt
    · omega
    · omega
  · intro shm shm2 bx by_ tx ty bx2 by2 tx2 ty2 p v v2 htx hty htx2 hty2 hw hw2
    obtain ⟨a1, b1, c1, d1, hp1⟩ :=
      sharedMemoryCrossCorrelationKernel_some shm ks rows cols bdy bdx bx by_ tx ty p v hw
    obtain ⟨a2, b2, c2, d2, hp2⟩ :=
      sharedMemoryCrossCorrelationKernel_some shm2 ks rows cols bdy bdx bx2 by2 tx2 ty2 p v2 hw2
    have hx1 : bdy * bx + tx - ks / 2 < cols - (ks - 1) := by omega
    have hx2 : bdy * bx2 + tx2 - ks / 2 < cols - (ks - 1) := by omega
    obtain ⟨hrow, hcol⟩ := cell_decomp_unique (cols - (ks - 1)) _ _ _ _ hx1 hx2
      (hp1.symm.trans hp2)
    have hgy : bdx * by_ + ty = bdx * by2 + ty2 := by omega
    have hgx : bdy * bx + tx = bdy * bx2 + tx2 := by omega
    obtain ⟨hbye, htye⟩ := block_decomp_unique bdx by_ ty by2 ty2 hty hty2 hgy
    obtain ⟨hbxe, htxe⟩ := block_decomp_unique bdy bx tx bx2 tx2 htx htx2 hgx
    exact ⟨hbxe, hbye, htxe, htye⟩

theorem c4_witness : (3 % 2 = 1 ∧ 3 ≤ 3 ∧ 3 ≤ 4 ∧ 3 ≤ 4 ∧ 0 < 2 ∧ 0 < 2 ∧
      1 < 4 - (3 - 1) ∧ 0 < 4 - (3 - 1)) ∧
    ∃! q : (Nat × Nat) × Nat × Nat,
      q ∈ gridThreads (crossCorrelationGrid 3 4 4 2 2).1 (crossCorrelationGrid 3 4 4 2 2).2 2 2 ∧
      ∃ v, crossCorrelationKernel zeroMem zeroMem 3 4 4 2 2 q.1.1 q.1.2 q.2.1 q.2.2 =
        some (1 * (4 - (3 - 1)) + 0, v) :=
  ⟨by decide,
    (c4_amended zeroMem zeroMem 3 4 4 2 2 (by decide) (by decide) (by decide) (by decide)
      (by decide) (by decide)).1 1 0 (by decide) (by decide)⟩
